import Mathlib

/-! Shallow embedding of the Iftar countdown logic in `src/src/App.tsx`:
the fixed-offset Bangladesh clock, the countdown-target computation, the
remaining-time breakdown, the schedule loader with its static fallback, and
the Ramadan day counter.  JavaScript `Date` arithmetic (ECMA-262 UTC field
extraction and `Date.UTC`) is modelled by the proleptic Gregorian civil
calendar on day numbers relative to the Unix epoch; instants are `Int`
milliseconds. -/

namespace IftarApp

/-- Number of days from the start of a 400-year era (shifted years starting
March 1) to the start of shifted year `yoe` (0 ≤ yoe ≤ 399): 365 days per year
plus a leap day after every year divisible by 4 but not by 100. -/
def doeOfYoe (yoe : Nat) : Nat := 365 * yoe + yoe / 4 - yoe / 100

/-- Shifted year within the era of a day-of-era `doe` (0 ≤ doe ≤ 146096). -/
def yoeOfDoe (doe : Nat) : Nat := (doe - doe / 1460 + doe / 36524 - doe / 146096) / 365

/-- Days from March 1 to the start of shifted month `mp` (0 = March, ..., 11 = February). -/
def doyStartOfMp (mp : Nat) : Nat := (153 * mp + 2) / 5

/-- Shifted month of a day-of-shifted-year `doy` (0 ≤ doy ≤ 365). -/
def mpOfDoy (doy : Nat) : Nat := (5 * doy + 2) / 153

/-- Gregorian calendar date: year, month 1-12, day 1-31. -/
structure Civil where
  y : Int
  m : Nat
  d : Nat
deriving DecidableEq

/-- Civil date of the day numbered `z` (days since 1970-01-01, any sign),
as ECMAScript UTC field extraction computes it. -/
def civilFromDays (z : Int) : Civil :=
  let doe := ((z + 719468) % 146097).toNat
  let era := (z + 719468) / 146097
  let yoe := yoeOfDoe doe
  let doy := doe - doeOfYoe yoe
  let mp := mpOfDoy doy
  let m := if mp < 10 then mp + 3 else mp - 9
  { y := era * 400 + yoe + (if m ≤ 2 then 1 else 0),
    m := m,
    d := doy - doyStartOfMp mp + 1 }

/-- Day number (days since 1970-01-01) of a civil date with month `m` in 1..12
and day `d` in 1..31, as ECMAScript `Date.UTC(y, m-1, d)` computes it for
in-range arguments. -/
def daysFromCivil (y : Int) (m d : Nat) : Int :=
  let ys := if m ≤ 2 then y - 1 else y
  let era := ys / 400
  let yoe := (ys % 400).toNat
  let mp := if 2 < m then m - 3 else m + 9
  let doy := doyStartOfMp mp + d - 1
  era * 146097 + ((doeOfYoe yoe + doy : Nat) : Int) - 719468

/-- Fixed Bangladesh offset in milliseconds (`BD_OFFSET_MS = 6*60*60*1000`,
line 13 of `App.tsx`). -/
def BD_OFFSET_MS : Int := 6 * 60 * 60 * 1000

/-- Models `getBdNow()` (line 48): the current absolute instant shifted by the
fixed offset (`new Date(Date.now() + BD_OFFSET_MS)`), with the current instant
passed explicitly. -/
def getBdNow (nowUtcMs : Int) : Int := nowUtcMs + BD_OFFSET_MS

/-- Calendar fields as read by `getBdDateParts` via the `getUTC*` accessors;
`m` is the zero-based month of `getUTCMonth`. -/
structure DateParts where
  y : Int
  m : Nat
  d : Nat
  hh : Nat
  mm : Nat
  ss : Nat

/-- Models `getBdDateParts(date)` (lines 52-61) on a shifted instant `t` in
milliseconds: UTC-style field extraction per ECMA-262, that is, civil fields
of the floor day number and floor-mod time of day. -/
def getBdDateParts (t : Int) : DateParts :=
  let c := civilFromDays (t / 86400000)
  let tod := (t % 86400000).toNat
  { y := c.y, m := c.m - 1, d := c.d,
    hh := tod / 3600000, mm := tod / 60000 % 60, ss := tod / 1000 % 60 }

/-- Models `Date.UTC(y, m0, d, 0, 0, 0)` for a zero-based month `m0` in 0..11
and day `d` in 1..31 (the only arguments the app passes). -/
def dateUTC (y : Int) (m0 d : Nat) : Int := daysFromCivil y (m0 + 1) d * 86400000

/-- Models `getTargetUtcMs(iftarHHMM, addDays)` (lines 63-74) with the clock
read `Date.now()` passed explicitly as `nowUtcMs` and the time of day already
parsed as hour `H` and minute `M`. -/
def targetUtcMs (nowUtcMs : Int) (H M : Nat) (addDays : Int) : Int :=
  let p := getBdDateParts (getBdNow nowUtcMs)
  let baseUtcMsForBdMidnight := dateUTC p.y p.m p.d
  let bdMidnightUtcMs := baseUtcMsForBdMidnight - BD_OFFSET_MS
  bdMidnightUtcMs + addDays * 86400000 + (H : Int) * 3600000 + (M : Int) * 60000

/-- Models JavaScript string split with a single-character separator, on the
character list of the string. -/
def splitOnChar (c : Char) : List Char → List (List Char)
  | [] => [[]]
  | x :: xs =>
    if x = c then [] :: splitOnChar c xs
    else
      match splitOnChar c xs with
      | [] => [[x]]
      | y :: ys => (x :: y) :: ys

/-- Models JavaScript number conversion on the strings the app feeds it: a
nonempty all-digit string yields its decimal value; anything else yields the
not-a-number value, modelled as `none`.  Exotic numeric forms (signs, blanks,
fractions, exponents, the empty string) do not occur in the data this app
handles and are mapped to `none` as well. -/
def digitsToNat (l : List Char) : Option Nat :=
  if l ≠ [] ∧ l.all Char.isDigit then
    some (l.foldl (fun a c => 10 * a + (c.toNat - 48)) 0)
  else none

/-- Models line 66 of `App.tsx` (split on the colon, convert both fields to
numbers, destructure the first two): `none` when either field is missing or
not a number (the NaN case). -/
def parseHHMM (s : String) : Option (Nat × Nat) :=
  match (splitOnChar ':' s.data).map digitsToNat with
  | some H :: some M :: _ => some (H, M)
  | _ => none

/-- Models `getTargetUtcMs` on the raw time-of-day string: `none` when the
string is malformed (NaN arithmetic in the source). -/
def getTargetUtcMs (nowUtcMs : Int) (iftarHHMM : String) (addDays : Int) : Option Int :=
  (parseHHMM iftarHHMM).map fun HM => targetUtcMs nowUtcMs HM.1 HM.2 addDays

/-- Models the remaining-time computation of `CountdownCard` (lines 90-94):
clamp the difference at zero, floor to seconds, then split into hours,
minutes and seconds. -/
def remaining (targetInstant nowInstant : Int) : Int × Int × Int :=
  let diffMs := max 0 (targetInstant - nowInstant)
  let totalSeconds := diffMs / 1000
  (totalSeconds / 3600, totalSeconds % 3600 / 60, totalSeconds % 60)

/-- Values computed by one countdown card for one tick. -/
structure CardView where
  isAfterIftar : Bool
  targetUtc : Int
  h : Int
  m : Int
  s : Int

/-- Models the `CountdownCard` component logic (lines 85-94) for a parsed
time of day: the target of the current local day, the elapsed test
(now at or past that target), the roll to the next day, and the
remaining-time breakdown. -/
def CountdownCard (nowUtcMs : Int) (H M : Nat) : CardView :=
  let targetTodayUtc := targetUtcMs nowUtcMs H M 0
  let targetUtc := if targetTodayUtc ≤ nowUtcMs then targetUtcMs nowUtcMs H M 1 else targetTodayUtc
  let r := remaining targetUtc nowUtcMs
  { isAfterIftar := decide (targetTodayUtc ≤ nowUtcMs),
    targetUtc := targetUtc, h := r.1, m := r.2.1, s := r.2.2 }

/-- Region schedule entry (the `Division` interface, lines 22-25). -/
structure Division where
  name : String
  iftar : String
deriving DecidableEq

/-- The built-in fallback list (lines 27-36), verbatim. -/
def FALLBACK_DIVISIONS : List Division := [
  { name := "ঢাকা বিভাগ", iftar := "18:00" },
  { name := "চট্টগ্রাম বিভাগ", iftar := "17:55" },
  { name := "রাজশাহী বিভাগ", iftar := "18:05" },
  { name := "খুলনা বিভাগ", iftar := "18:04" },
  { name := "বরিশাল বিভাগ", iftar := "18:01" },
  { name := "সিলেট বিভাগ", iftar := "17:53" },
  { name := "রংপুর বিভাগ", iftar := "18:03" },
  { name := "ময়মনসিংহ বিভাগ", iftar := "17:59" }]

/-- Outcome of the one-shot remote read awaited in `fetchDivisions`: either
the awaited promise rejects (network failure), or it resolves to a pair of an
optional error and optional row data. -/
inductive FetchResp where
  | netError (msg : String)
  | reply (error : Option String) (data : Option (List Division))

/-- The `App` state touched by `fetchDivisions`: the `divisions` and
`loading` React states, plus a counter of `setLoading(false)` signals used to
state the claim that the loading transition fires exactly once. -/
structure AppState where
  divisions : List Division
  loading : Bool
  loadedSignals : Nat

/-- State at mount (lines 131-133): fallback divisions, `loading = true`. -/
def initState : AppState :=
  { divisions := FALLBACK_DIVISIONS, loading := true, loadedSignals := 0 }

/-- Models one run of `fetchDivisions` (lines 136-153) on a response `resp`:
a thrown error or a non-null `error` reaches the catch block and leaves the
divisions as they are; non-empty `data` replaces them; the finally block
signals `setLoading(false)` on every path. -/
def fetchDivisions (resp : FetchResp) (s : AppState) : AppState :=
  let s1 :=
    match resp with
    | .netError _ => s
    | .reply (some _) _ => s
    | .reply none none => s
    | .reply none (some rows) => if 0 < rows.length then { s with divisions := rows } else s
  { s1 with loading := false, loadedSignals := s1.loadedSignals + 1 }

/-- Models the local-timezone constructor `new Date(y, m0, d).getTime()` for a
machine whose fixed UTC offset is `tzOffsetMs` milliseconds. -/
def newDateLocalMs (tzOffsetMs y : Int) (m0 d : Nat) : Int := dateUTC y m0 d - tzOffsetMs

/-- Models the maximum of a spread nonempty list (`Math.max(...list)`); the
app always calls it with at least one division, so the empty case (negative
infinity in JavaScript) is given an arbitrary value. -/
def listMax : List Int → Int
  | [] => 0
  | x :: xs => xs.foldl max x

/-- Models the `ramadanDate` memo (lines 172-189), returning the day ordinal
that is rendered, or `none` when the counter is hidden.  Iftar times come
already parsed as hour/minute pairs, and the machine timezone offset used by
the local `new Date(y, m, d)` constructors is explicit. -/
def ramadanDate (tzOffsetMs nowUtcMs : Int) (iftars : List (Nat × Nat)) : Option Int :=
  let p := getBdDateParts (getBdNow nowUtcMs)
  let start := newDateLocalMs tzOffsetMs 2026 1 19
  let today := newDateLocalMs tzOffsetMs p.y p.m p.d
  let diffDays0 := (today - start) / 86400000 + 1
  let maxIftarMs := listMax (iftars.map fun HM => targetUtcMs nowUtcMs HM.1 HM.2 0)
  let diffDays := if maxIftarMs ≤ nowUtcMs then diffDays0 + 1 else diffDays0
  if 1 ≤ diffDays ∧ diffDays ≤ 30 then some diffDays else none

set_option maxHeartbeats 2000000 in
/-- Within one era, the year-of-era formula of `yoeOfDoe` is correct on each
year interval: checked year by year over the 400 years of an era. -/
theorem yoeOfDoe_eq (y doe : Nat) (hy : y ≤ 399) (hdoe : doe ≤ 146096)
    (h1 : 365 * y + y / 4 - y / 100 ≤ doe)
    (h2 : doe < 365 * (y + 1) + (y + 1) / 4 - (y + 1) / 100 ∨ y = 399) :
    (doe - doe / 1460 + doe / 36524 - doe / 146096) / 365 = y := by
  interval_cases y <;> omega

/-- The year-of-era extracted from a day-of-era is in range, starts no later
than the day, and the day falls at most 365 days into that year. -/
theorem yoeOfDoe_bounds (doe : Nat) (h : doe ≤ 146096) :
    yoeOfDoe doe ≤ 399 ∧ doeOfYoe (yoeOfDoe doe) ≤ doe ∧
      doe - doeOfYoe (yoeOfDoe doe) ≤ 365 := by
  have h0 : 365 * 0 + 0 / 4 - 0 / 100 ≤ doe := by omega
  have hspec := Nat.findGreatest_spec (P := fun k => 365 * k + k / 4 - k / 100 ≤ doe)
    (Nat.zero_le 399) h0
  have hy399 := Nat.findGreatest_le (P := fun k => 365 * k + k / 4 - k / 100 ≤ doe) (n := 399)
  by_cases hcase : Nat.findGreatest (fun k => 365 * k + k / 4 - k / 100 ≤ doe) 399 = 399
  · rw [hcase] at hspec
    have heq := yoeOfDoe_eq 399 doe (by omega) h hspec (Or.inr rfl)
    unfold yoeOfDoe doeOfYoe
    omega
  · have hgr := Nat.findGreatest_is_greatest (P := fun k => 365 * k + k / 4 - k / 100 ≤ doe)
      (k := Nat.findGreatest (fun k => 365 * k + k / 4 - k / 100 ≤ doe) 399 + 1)
      (n := 399) (by omega) (by omega)
    have heq := yoeOfDoe_eq _ doe (by omega) h hspec (Or.inl (by omega))
    unfold yoeOfDoe doeOfYoe
    rw [heq]
    omega

/-- Converting a day number to a civil date and back is the identity. -/
theorem daysFromCivil_civilFromDays (z : Int) :
    daysFromCivil (civilFromDays z).y (civilFromDays z).m (civilFromDays z).d = z := by
  obtain ⟨doe, hdoe⟩ : ∃ n : Nat, (n : Int) = (z + 719468) % 146097 :=
    ⟨((z + 719468) % 146097).toNat,
      Int.toNat_of_nonneg (Int.emod_nonneg _ (by norm_num))⟩
  have hlt : (z + 719468) % 146097 < 146097 :=
    Int.emod_lt_of_pos _ (by norm_num)
  have hup : doe ≤ 146096 := by omega
  have hB := yoeOfDoe_bounds doe hup
  have htn : ((z + 719468) % 146097).toNat = doe := by omega
  simp only [civilFromDays, daysFromCivil, htn]
  set yoe := yoeOfDoe doe with hyoe
  set sy := doeOfYoe yoe with hsy
  set doy := doe - sy with hdoyd
  set mp := mpOfDoy doy with hmpd
  have hM : doyStartOfMp mp ≤ doy ∧ mp ≤ 11 := by
    rw [hmpd]
    unfold doyStartOfMp mpOfDoy
    omega
  have hyoele : yoe ≤ 399 := hB.1
  have hsyle : sy ≤ doe := hB.2.1
  have hdoyle : doy ≤ 365 := hB.2.2
  by_cases hmp : mp < 10
  · rw [if_pos hmp, if_neg (show ¬(mp + 3 ≤ 2) by omega), if_neg (show ¬(mp + 3 ≤ 2) by omega),
      if_pos (show 2 < mp + 3 by omega)]
    have ha : mp + 3 - 3 = mp := by omega
    rw [ha]
    have hera : (z + 719468) / 146097 * 400 + (yoe : Int) + 0
        = (z + 719468) / 146097 * 400 + (yoe : Int) := by ring
    rw [hera]
    have hediv : ((z + 719468) / 146097 * 400 + (yoe : Int)) / 400 = (z + 719468) / 146097 := by
      omega
    have hemod : (((z + 719468) / 146097 * 400 + (yoe : Int)) % 400).toNat = yoe := by omega
    rw [hediv, hemod]
    have hd : doyStartOfMp mp + (doy - doyStartOfMp mp + 1) - 1 = doy := by omega
    rw [hd]
    omega
  · rw [if_neg hmp, if_pos (show mp - 9 ≤ 2 by omega), if_pos (show mp - 9 ≤ 2 by omega),
      if_neg (show ¬(2 < mp - 9) by omega)]
    have ha : mp - 9 + 9 = mp := by omega
    rw [ha]
    have hera : (z + 719468) / 146097 * 400 + (yoe : Int) + 1 - 1
        = (z + 719468) / 146097 * 400 + (yoe : Int) := by ring
    rw [hera]
    have hediv : ((z + 719468) / 146097 * 400 + (yoe : Int)) / 400 = (z + 719468) / 146097 := by
      omega
    have hemod : (((z + 719468) / 146097 * 400 + (yoe : Int)) % 400).toNat = yoe := by omega
    rw [hediv, hemod]
    have hd : doyStartOfMp mp + (doy - doyStartOfMp mp + 1) - 1 = doy := by omega
    rw [hd]
    omega

/-- The month produced by `civilFromDays` lies in 1..12. -/
theorem civilFromDays_m_bounds (z : Int) :
    1 ≤ (civilFromDays z).m ∧ (civilFromDays z).m ≤ 12 := by
  obtain ⟨doe, hdoe⟩ : ∃ n : Nat, (n : Int) = (z + 719468) % 146097 :=
    ⟨((z + 719468) % 146097).toNat,
      Int.toNat_of_nonneg (Int.emod_nonneg _ (by norm_num))⟩
  have hlt : (z + 719468) % 146097 < 146097 :=
    Int.emod_lt_of_pos _ (by norm_num)
  have hup : doe ≤ 146096 := by omega
  have hB := yoeOfDoe_bounds doe hup
  have htn : ((z + 719468) % 146097).toNat = doe := by omega
  simp only [civilFromDays, yoeOfDoe, doeOfYoe, mpOfDoy, doyStartOfMp, htn] at hB ⊢
  split_ifs <;> omega

/-- Rebuilding local midnight from extracted calendar fields floors the
instant to its day boundary. -/
theorem dateUTC_parts (t : Int) :
    dateUTC (getBdDateParts t).y (getBdDateParts t).m (getBdDateParts t).d
      = t / 86400000 * 86400000 := by
  have h1 := daysFromCivil_civilFromDays (t / 86400000)
  have h2 := civilFromDays_m_bounds (t / 86400000)
  simp only [getBdDateParts, dateUTC]
  rw [show (civilFromDays (t / 86400000)).m - 1 + 1 = (civilFromDays (t / 86400000)).m from by
    omega]
  rw [h1]

/-- Closed form of the countdown target: Bangladesh midnight of the current
local day, plus the day offset and the time of day. -/
theorem targetUtcMs_closed (nowUtcMs : Int) (H M : Nat) (addDays : Int) :
    targetUtcMs nowUtcMs H M addDays =
      (nowUtcMs + BD_OFFSET_MS) / 86400000 * 86400000 - BD_OFFSET_MS
        + addDays * 86400000 + (H : Int) * 3600000 + (M : Int) * 60000 := by
  simp only [targetUtcMs, getBdNow]
  rw [dateUTC_parts]

/-- The seed of a max fold is bounded by the fold. -/
theorem le_foldl_max (l : List Int) (a : Int) : a ≤ l.foldl max a := by
  induction l generalizing a with
  | nil => exact le_refl a
  | cons x xs ih =>
    simp only [List.foldl]
    exact le_trans (le_max_left a x) (ih (max a x))

/-- Every list element is bounded by a max fold over the list. -/
theorem mem_le_foldl_max (l : List Int) (a : Int) : ∀ x ∈ l, x ≤ l.foldl max a := by
  induction l generalizing a with
  | nil => intro x hx; cases hx
  | cons y ys ih =>
    intro x hx
    simp only [List.foldl]
    rcases List.mem_cons.mp hx with h | h
    · subst h
      exact le_trans (le_max_right a x) (le_foldl_max ys (max a x))
    · exact ih (max a y) x h

/-- A max fold returns its seed or some list element. -/
theorem foldl_max_mem (l : List Int) (a : Int) : l.foldl max a = a ∨ l.foldl max a ∈ l := by
  induction l generalizing a with
  | nil => exact Or.inl rfl
  | cons x xs ih =>
    simp only [List.foldl]
    rcases ih (max a x) with h | h
    · rcases max_choice a x with hm | hm
      · exact Or.inl (by rw [h, hm])
      · exact Or.inr (by rw [h, hm]; exact List.mem_cons_self x xs)
    · exact Or.inr (List.mem_cons_of_mem x h)

/-- The maximum of a nonempty list is one of its elements. -/
theorem listMax_mem (l : List Int) (h : l ≠ []) : listMax l ∈ l := by
  cases l with
  | nil => exact absurd rfl h
  | cons x xs =>
    simp only [listMax]
    rcases foldl_max_mem xs x with h1 | h1
    · rw [h1]; exact List.mem_cons_self x xs
    · exact List.mem_cons_of_mem x h1

/-- The maximum of a list bounds every element of the list. -/
theorem listMax_ub (l : List Int) (x : Int) (hx : x ∈ l) : x ≤ listMax l := by
  cases l with
  | nil => cases hx
  | cons y ys =>
    simp only [listMax]
    rcases List.mem_cons.mp hx with h | h
    · subst h; exact le_foldl_max ys x
    · exact mem_le_foldl_max ys y x h

/-- C1: for every target and now instant, `remaining` returns the
floor-rounded breakdown of the clamped difference into whole
hours, minutes within the hour (0-59) and seconds within the minute (0-59);
no component is negative, and when now equals the target the result is all
zero. -/
theorem C1_remaining_breakdown (targetInstant nowInstant : Int) :
    0 ≤ (remaining targetInstant nowInstant).1 ∧
    0 ≤ (remaining targetInstant nowInstant).2.1 ∧
    (remaining targetInstant nowInstant).2.1 ≤ 59 ∧
    0 ≤ (remaining targetInstant nowInstant).2.2 ∧
    (remaining targetInstant nowInstant).2.2 ≤ 59 ∧
    (remaining targetInstant nowInstant).1 * 3600000 +
        (remaining targetInstant nowInstant).2.1 * 60000 +
        (remaining targetInstant nowInstant).2.2 * 1000
      ≤ max 0 (targetInstant - nowInstant) ∧
    max 0 (targetInstant - nowInstant) <
      (remaining targetInstant nowInstant).1 * 3600000 +
        (remaining targetInstant nowInstant).2.1 * 60000 +
        (remaining targetInstant nowInstant).2.2 * 1000 + 1000 ∧
    remaining targetInstant targetInstant = (0, 0, 0) := by
  simp only [remaining]
  refine ⟨by omega, by omega, by omega, by omega, by omega, by omega, by omega, ?_⟩
  simp only [Prod.mk.injEq]
  refine ⟨by omega, by omega, by omega⟩

/-- C2: the per-region state is Elapsed exactly when now is at or past the
target of the current local day (inclusive boundary); in that state the
displayed target is the next-day occurrence (day offset 1) of the same time
of day, which is exactly 24 hours later; otherwise the state is Pending and
the displayed target is the current-day occurrence. -/
theorem C2_state_boundary (nowUtcMs : Int) (H M : Nat) (hH : H ≤ 23) (hM : M ≤ 59) :
    ((CountdownCard nowUtcMs H M).isAfterIftar = true ↔
        targetUtcMs nowUtcMs H M 0 ≤ nowUtcMs) ∧
    (targetUtcMs nowUtcMs H M 0 ≤ nowUtcMs →
        (CountdownCard nowUtcMs H M).targetUtc = targetUtcMs nowUtcMs H M 1) ∧
    (nowUtcMs < targetUtcMs nowUtcMs H M 0 →
        (CountdownCard nowUtcMs H M).targetUtc = targetUtcMs nowUtcMs H M 0) ∧
    targetUtcMs nowUtcMs H M 1 = targetUtcMs nowUtcMs H M 0 + 86400000 := by
  refine ⟨?_, ?_, ?_, ?_⟩
  · simp [CountdownCard]
  · intro h
    simp only [CountdownCard]
    rw [if_pos h]
  · intro h
    simp only [CountdownCard]
    rw [if_neg (not_le.mpr h)]
  · rw [targetUtcMs_closed, targetUtcMs_closed]
    ring

/-- C2 witness at a concrete elapsed instant. -/
theorem C2_state_boundary_witness :
    ((CountdownCard 0 0 0).isAfterIftar = true ↔ targetUtcMs 0 0 0 0 ≤ 0) ∧
    (CountdownCard 0 0 0).targetUtc = targetUtcMs 0 0 0 1 ∧
    targetUtcMs 0 0 0 1 = targetUtcMs 0 0 0 0 + 86400000 := by
  have h := C2_state_boundary 0 0 0 (by decide) (by decide)
  exact ⟨h.1, h.2.1 (by decide), h.2.2.2⟩

/-- C3: with the time of day and the current instant fixed, the target is
monotonically increasing in the day offset, by exactly 24 hours (86400000 ms)
per increment, for every day offset at least 0. -/
theorem C3_dayOffset_monotone (nowUtcMs : Int) (H M : Nat) (addDays : Int)
    (hH : H ≤ 23) (hM : M ≤ 59) (hd : 0 ≤ addDays) :
    targetUtcMs nowUtcMs H M (addDays + 1) = targetUtcMs nowUtcMs H M addDays + 86400000 ∧
    targetUtcMs nowUtcMs H M addDays < targetUtcMs nowUtcMs H M (addDays + 1) := by
  rw [targetUtcMs_closed, targetUtcMs_closed]
  constructor
  · ring
  · omega

/-- C3 witness at day offset 0 and six in the evening. -/
theorem C3_dayOffset_monotone_witness :
    targetUtcMs 0 18 0 (0 + 1) = targetUtcMs 0 18 0 0 + 86400000 ∧
    targetUtcMs 0 18 0 0 < targetUtcMs 0 18 0 (0 + 1) :=
  C3_dayOffset_monotone 0 18 0 0 (by decide) (by decide) (by decide)

/-- C4 counterexample: a remote reply whose single row is malformed is not a
failure path for the loader; the malformed row is returned verbatim instead
of the fallback, contradicting the claim that malformed rows yield the
fallback list. -/
theorem C4_load_counterexample :
    parseHHMM ("banana") = none ∧
    (fetchDivisions (.reply none (some [{ name := "X", iftar := "banana" }]))
        initState).divisions = [{ name := "X", iftar := "banana" }] ∧
    [({ name := "X", iftar := "banana" } : Division)] ≠ FALLBACK_DIVISIONS := by
  refine ⟨by decide, by decide, by decide⟩

/-- C4 (amended): the loader never throws (it is a total function of the
response); a reply with at least one row yields exactly those rows in order,
whether or not they are well-formed, and every other path — network error,
remote error response, null data, empty result — yields the built-in
8-entry fallback in its fixed order. -/
theorem C4_load_fallback (resp : FetchResp) :
    FALLBACK_DIVISIONS.length = 8 ∧
    (∀ rows, resp = FetchResp.reply none (some rows) → rows ≠ [] →
        (fetchDivisions resp initState).divisions = rows) ∧
    (∀ msg, resp = FetchResp.netError msg →
        (fetchDivisions resp initState).divisions = FALLBACK_DIVISIONS) ∧
    (∀ e d, resp = FetchResp.reply (some e) d →
        (fetchDivisions resp initState).divisions = FALLBACK_DIVISIONS) ∧
    (resp = FetchResp.reply none none →
        (fetchDivisions resp initState).divisions = FALLBACK_DIVISIONS) ∧
    (resp = FetchResp.reply none (some []) →
        (fetchDivisions resp initState).divisions = FALLBACK_DIVISIONS) := by
  refine ⟨rfl, ?_, ?_, ?_, ?_, ?_⟩
  · intro rows h hne
    subst h
    cases rows with
    | nil => exact absurd rfl hne
    | cons a as => simp [fetchDivisions]
  · intro msg h; subst h; rfl
  · intro e d h; subst h; rfl
  · intro h; subst h; rfl
  · intro h; subst h; rfl

/-- C4 witness: the empty-result, network-error and one-row paths at concrete
inputs. -/
theorem C4_load_fallback_witness :
    (fetchDivisions (.reply none (some [])) initState).divisions = FALLBACK_DIVISIONS ∧
    (fetchDivisions (.netError ("down")) initState).divisions = FALLBACK_DIVISIONS ∧
    (fetchDivisions (.reply none (some [{ name := "A", iftar := "17:50" }]))
        initState).divisions = [{ name := "A", iftar := "17:50" }] := by
  refine ⟨(C4_load_fallback _).2.2.2.2.2 rfl, (C4_load_fallback _).2.2.1 ("down") rfl,
    (C4_load_fallback _).2.1 _ rfl (by decide)⟩

/-- C5: the displayed Ramadan ordinal equals the day-number difference
between the current local date and the epoch start Feb 19, 2026, plus one,
plus one more exactly when now has reached the maximum of the today-targets
of all schedule entries (and `listMax` really is that maximum); the counter
renders only when the ordinal lies in 1..30.  The machine timezone offset
used by the local date constructors cancels out. -/
theorem C5_ramadan_counter (tzOffsetMs nowUtcMs : Int) (iftars : List (Nat × Nat))
    (hne : iftars ≠ []) :
    (ramadanDate tzOffsetMs nowUtcMs iftars =
      if 1 ≤ daysFromCivil (getBdDateParts (getBdNow nowUtcMs)).y
              ((getBdDateParts (getBdNow nowUtcMs)).m + 1) (getBdDateParts (getBdNow nowUtcMs)).d
            - daysFromCivil 2026 2 19 + 1
            + (if listMax (iftars.map fun HM => targetUtcMs nowUtcMs HM.1 HM.2 0) ≤ nowUtcMs
                then 1 else 0) ∧
          daysFromCivil (getBdDateParts (getBdNow nowUtcMs)).y
              ((getBdDateParts (getBdNow nowUtcMs)).m + 1) (getBdDateParts (getBdNow nowUtcMs)).d
            - daysFromCivil 2026 2 19 + 1
            + (if listMax (iftars.map fun HM => targetUtcMs nowUtcMs HM.1 HM.2 0) ≤ nowUtcMs
                then 1 else 0) ≤ 30
      then some (daysFromCivil (getBdDateParts (getBdNow nowUtcMs)).y
              ((getBdDateParts (getBdNow nowUtcMs)).m + 1) (getBdDateParts (getBdNow nowUtcMs)).d
            - daysFromCivil 2026 2 19 + 1
            + (if listMax (iftars.map fun HM => targetUtcMs nowUtcMs HM.1 HM.2 0) ≤ nowUtcMs
                then 1 else 0))
      else none) ∧
    listMax (iftars.map fun HM => targetUtcMs nowUtcMs HM.1 HM.2 0) ∈
      iftars.map (fun HM => targetUtcMs nowUtcMs HM.1 HM.2 0) ∧
    ∀ t ∈ iftars.map (fun HM => targetUtcMs nowUtcMs HM.1 HM.2 0),
      t ≤ listMax (iftars.map fun HM => targetUtcMs nowUtcMs HM.1 HM.2 0) := by
  have hmapne : iftars.map (fun HM => targetUtcMs nowUtcMs HM.1 HM.2 0) ≠ [] := by
    cases iftars with
    | nil => exact absurd rfl hne
    | cons a as => simp
  refine ⟨?_, listMax_mem _ hmapne, fun t ht => listMax_ub _ t ht⟩
  simp only [ramadanDate, newDateLocalMs, dateUTC]
  rw [show daysFromCivil 2026 (1 + 1) 19 = daysFromCivil 2026 2 19 from rfl]
  split_ifs <;>
    first
      | rfl
      | (exfalso; omega)
      | (simp only [Option.some.injEq]; omega)

/-- C5 witness at a concrete instant far before the epoch (counter hidden). -/
theorem C5_ramadan_counter_witness : ramadanDate 0 0 [(18, 0)] = none := by
  rw [(C5_ramadan_counter 0 0 [(18, 0)] (by decide)).1]
  decide

/-- C6: decomposing the offset-shifted instant into local calendar fields,
rebuilding local midnight, shifting back by the fixed 6-hour offset and
re-adding it yields an instant whose local calendar date equals the date
obtained in the original decomposition. -/
theorem C6_roundtrip_date (t : Int) :
    (getBdDateParts (dateUTC (getBdDateParts (t + BD_OFFSET_MS)).y
        (getBdDateParts (t + BD_OFFSET_MS)).m (getBdDateParts (t + BD_OFFSET_MS)).d
      - BD_OFFSET_MS + BD_OFFSET_MS)).y = (getBdDateParts (t + BD_OFFSET_MS)).y ∧
    (getBdDateParts (dateUTC (getBdDateParts (t + BD_OFFSET_MS)).y
        (getBdDateParts (t + BD_OFFSET_MS)).m (getBdDateParts (t + BD_OFFSET_MS)).d
      - BD_OFFSET_MS + BD_OFFSET_MS)).m = (getBdDateParts (t + BD_OFFSET_MS)).m ∧
    (getBdDateParts (dateUTC (getBdDateParts (t + BD_OFFSET_MS)).y
        (getBdDateParts (t + BD_OFFSET_MS)).m (getBdDateParts (t + BD_OFFSET_MS)).d
      - BD_OFFSET_MS + BD_OFFSET_MS)).d = (getBdDateParts (t + BD_OFFSET_MS)).d := by
  rw [dateUTC_parts]
  rw [show (t + BD_OFFSET_MS) / 86400000 * 86400000 - BD_OFFSET_MS + BD_OFFSET_MS
      = (t + BD_OFFSET_MS) / 86400000 * 86400000 from by ring]
  simp only [getBdDateParts]
  rw [show (t + BD_OFFSET_MS) / 86400000 * 86400000 / 86400000
      = (t + BD_OFFSET_MS) / 86400000 from by omega]
  exact ⟨rfl, rfl, rfl⟩

/-- C7 counterexample: an entry whose time-of-day string is malformed is not
rejected at load time; the loader keeps it verbatim, contradicting the claim
that such entries are a hard failure at load. -/
theorem C7_malformed_counterexample :
    parseHHMM ("garbage") = none ∧
    (fetchDivisions (.reply none (some [{ name := "Y", iftar := "garbage" }]))
        initState).divisions = [{ name := "Y", iftar := "garbage" }] := by
  exact ⟨by decide, by decide⟩

/-- C7 (amended): the loader performs no validation — any nonempty row list
is accepted verbatim, including malformed times — and a malformed time
produces no numeric target downstream (the NaN arithmetic of the source,
modelled as `none`). -/
theorem C7_malformed_accepted (rows : List Division) (hne : rows ≠ []) :
    (fetchDivisions (.reply none (some rows)) initState).divisions = rows ∧
    (∀ (nowUtcMs addDays : Int) (d : Division), parseHHMM d.iftar = none →
        getTargetUtcMs nowUtcMs d.iftar addDays = none) := by
  constructor
  · cases rows with
    | nil => exact absurd rfl hne
    | cons a as => simp [fetchDivisions]
  · intro now ad d hp
    simp [getTargetUtcMs, hp]

/-- C7 witness: a malformed row is accepted and its target is `none`. -/
theorem C7_malformed_accepted_witness :
    (fetchDivisions (.reply none (some [{ name := "Y", iftar := "zz:zz" }]))
        initState).divisions = [{ name := "Y", iftar := "zz:zz" }] ∧
    getTargetUtcMs 0 ("zz:zz") 0 = none := by
  have h := C7_malformed_accepted [{ name := "Y", iftar := "zz:zz" }] (by decide)
  exact ⟨h.1, h.2 0 0 { name := "Y", iftar := "zz:zz" } (by decide)⟩

/-- C8: the loading transition is signalled exactly once per load, on every
execution path of the loader, and it always ends with `loading = false`. -/
theorem C8_loading_signal (resp : FetchResp) (s : AppState) :
    (fetchDivisions resp s).loadedSignals = s.loadedSignals + 1 ∧
    (fetchDivisions resp s).loading = false := by
  cases resp with
  | netError msg => exact ⟨rfl, rfl⟩
  | reply e d =>
    cases e with
    | some err => exact ⟨rfl, rfl⟩
    | none =>
      cases d with
      | none => exact ⟨rfl, rfl⟩
      | some rows =>
        simp only [fetchDivisions]
        split_ifs <;> exact ⟨rfl, trivial⟩

/-- C9: for every instant and valid time of day, the displayed countdown
target is strictly in the future, so the clamp at zero never truncates. -/
theorem C9_target_future (nowUtcMs : Int) (H M : Nat) (hH : H ≤ 23) (hM : M ≤ 59) :
    nowUtcMs < (CountdownCard nowUtcMs H M).targetUtc ∧
    max 0 ((CountdownCard nowUtcMs H M).targetUtc - nowUtcMs)
      = (CountdownCard nowUtcMs H M).targetUtc - nowUtcMs := by
  have h0 := targetUtcMs_closed nowUtcMs H M 0
  have h1 := targetUtcMs_closed nowUtcMs H M 1
  simp only [CountdownCard]
  split_ifs with hc
  · rw [h1]
    rw [h0] at hc
    constructor <;> omega
  · rw [h0]
    rw [h0] at hc
    constructor <;> omega

/-- C9 witness at six in the evening and the epoch instant. -/
theorem C9_target_future_witness :
    (0 : Int) < (CountdownCard 0 18 0).targetUtc ∧
    max 0 ((CountdownCard 0 18 0).targetUtc - 0) = (CountdownCard 0 18 0).targetUtc - 0 :=
  C9_target_future 0 18 0 (by decide) (by decide)

/-- C10: local midnight derived from any instant (the target for time of day
00:00 at day offset 0) brackets that instant: midnight ≤ now < midnight plus
24 hours. -/
theorem C10_midnight_bracket (nowUtcMs : Int) :
    targetUtcMs nowUtcMs 0 0 0 ≤ nowUtcMs ∧
    nowUtcMs < targetUtcMs nowUtcMs 0 0 0 + 86400000 := by
  rw [targetUtcMs_closed]
  constructor <;> omega

end IftarApp
